import Mathlib

/-!
Verification development for the adaptive transcoding server
(`server.js`, final revision).  The definitions below are a shallow
embedding of the server's path handling, startup codec probe, plan
selection and the three `/compress/*` route handlers; the theorems at
the end settle the specification claims against them.

Strings are modelled by Lean `String` (a wrapper around `List Char`);
the Node `path.posix` helpers used by the server (`extname`,
`path.parse(..).name`, `path.join` with its `.`/`..` normalisation)
are re-implemented on `List Char` faithfully to Node's documented
semantics on a POSIX host.
-/

namespace FSC

/-! ## Node path.posix primitives -/

/-- Drop trailing `/` characters (Node's basename/extname ignore them). -/
def stripTrailingSlashes (l : List Char) : List Char :=
  (l.reverse.dropWhile (fun c => c = '/')).reverse

/-- The suffix of `l` after its last `/` (the whole list when there is
no `/`).  This is the "last portion of the path" that `extname` and
`parse` inspect. -/
def afterLastSlash (l : List Char) : List Char :=
  l.foldl (fun acc c => if c = '/' then [] else acc ++ [c]) []

/-- Node `path.posix.extname`, on char lists.  Returns the extension
from the last `.` of the last path segment, or `[]` when the segment
has no dot, is a dotfile (the only dot is its first character), or is
exactly `..`. -/
def extnameData (p : List Char) : List Char :=
  let b := afterLastSlash (stripTrailingSlashes p)
  if b = ['.', '.'] then []
  else
    let r := b.reverse
    let afterDot := r.takeWhile (fun c => c ≠ '.')
    if afterDot.length = r.length then []
    else if afterDot.length + 1 = r.length then []
    else '.' :: afterDot.reverse

def extname (p : String) : String := ⟨extnameData p.data⟩

/-- Node `path.posix.parse(p).name`: the last path segment with the
`extname` suffix removed. -/
def parseNameData (p : List Char) : List Char :=
  let b := afterLastSlash (stripTrailingSlashes p)
  b.take (b.length - (extnameData p).length)

def parseName (p : String) : String := ⟨parseNameData p.data⟩

/-! ### Basic lemmas about the path primitives -/

theorem afterLastSlash_go_no_slash (l : List Char) :
    ∀ acc : List Char, '/' ∉ acc →
      '/' ∉ l.foldl (fun acc c => if c = '/' then [] else acc ++ [c]) acc := by
  induction l with
  | nil => intro acc h; simpa using h
  | cons c rest ih =>
    intro acc h
    simp only [List.foldl_cons]
    by_cases hc : c = '/'
    · rw [if_pos hc]; exact ih [] (by simp)
    · rw [if_neg hc]
      exact ih (acc ++ [c]) (by simp [h, Ne.symm hc])

theorem afterLastSlash_no_slash (l : List Char) : '/' ∉ afterLastSlash l :=
  afterLastSlash_go_no_slash l [] (by simp)

theorem afterLastSlash_go_id (l : List Char) (h : '/' ∉ l) :
    ∀ acc : List Char,
      l.foldl (fun acc c => if c = '/' then [] else acc ++ [c]) acc = acc ++ l := by
  induction l with
  | nil => intro acc; simp
  | cons c rest ih =>
    intro acc
    have hc : c ≠ '/' := fun hc => h (hc ▸ List.mem_cons_self c rest)
    have hrest : '/' ∉ rest := fun hr => h (List.mem_cons_of_mem c hr)
    simp only [List.foldl_cons, if_neg hc]
    rw [ih hrest (acc ++ [c])]
    simp

theorem afterLastSlash_of_no_slash (l : List Char) (h : '/' ∉ l) :
    afterLastSlash l = l := by
  unfold afterLastSlash
  rw [afterLastSlash_go_id l h []]
  simp

theorem stripTrailingSlashes_of_no_slash (l : List Char) (h : '/' ∉ l) :
    stripTrailingSlashes l = l := by
  unfold stripTrailingSlashes
  have : l.reverse.dropWhile (fun c => c = '/') = l.reverse := by
    cases hrev : l.reverse with
    | nil => simp
    | cons c t =>
      have hc : c ∈ l := by
        have : c ∈ l.reverse := by rw [hrev]; exact List.mem_cons_self c t
        simpa using this
      have : ¬(c = '/') := fun he => h (he ▸ hc)
      simp [List.dropWhile_cons, this]
  rw [this, List.reverse_reverse]

/-! ## path.join with normalisation (for the tmp-dir call site) -/

/-- Split a char list on `/`.  Always returns at least one (possibly
empty) component. -/
def splitSlash : List Char → List (List Char)
  | [] => [[]]
  | c :: rest =>
    if c = '/' then [] :: splitSlash rest
    else
      match splitSlash rest with
      | [] => [[c]]
      | h :: t => (c :: h) :: t

/-- Component normalisation of an absolute POSIX path, as performed by
Node's `path.posix.join`/`normalize`: empty and `.` components vanish,
`..` pops the previous component (staying at the root when there is
none). -/
def normComps (cs : List (List Char)) : List (List Char) :=
  cs.foldl
    (fun st comp =>
      if comp = [] then st
      else if comp = ['.'] then st
      else if comp = ['.', '.'] then st.dropLast
      else st ++ [comp]) []

/-- Re-render normalised components as an absolute path. -/
def renderAbs (cs : List (List Char)) : List Char :=
  cs.foldl (fun acc comp => acc ++ '/' :: comp) []

/-- `path.join(os.tmpdir(), name)` on a POSIX host where
`os.tmpdir() = "/tmp"`: concatenate with a separator, then normalise
(so `..` segments in `name` would climb out of `/tmp` — the behaviour
the filename-safety claim is about). -/
def tmpJoin (name : String) : String :=
  let joined := '/' :: 't' :: 'm' :: 'p' :: '/' :: name.data
  let comps := normComps (splitSlash joined)
  if comps = [] then ⟨['/']⟩ else ⟨renderAbs comps⟩

/-- `tmpFile` helper from the final revision:
`path.join(os.tmpdir(), uuid + (ext ? "." + ext : ""))`. -/
def tmpFilePath (u ext : String) : String :=
  tmpJoin ⟨u.data ++ (if ext.data = [] then [] else '.' :: ext.data)⟩

theorem splitSlash_of_no_slash (l : List Char) (h : '/' ∉ l) :
    splitSlash l = [l] := by
  induction l with
  | nil => rfl
  | cons c rest ih =>
    have hc : c ≠ '/' := fun he => h (he ▸ List.mem_cons_self c rest)
    have hrest : '/' ∉ rest := fun hr => h (List.mem_cons_of_mem c hr)
    rw [splitSlash, if_neg hc, ih hrest]

theorem splitSlash_tmp_head (name : List Char) (h : '/' ∉ name) :
    splitSlash ('/' :: 't' :: 'm' :: 'p' :: '/' :: name) =
      [[], ['t', 'm', 'p'], name] := by
  rw [splitSlash, if_pos rfl]
  rw [splitSlash, if_neg (by decide)]
  rw [splitSlash, if_neg (by decide)]
  rw [splitSlash, if_neg (by decide)]
  rw [splitSlash, if_pos rfl]
  rw [splitSlash_of_no_slash name h]

theorem normComps_tmp_single (name : List Char)
    (h0 : name ≠ []) (h1 : name ≠ ['.']) (h2 : name ≠ ['.', '.']) :
    normComps [[], ['t', 'm', 'p'], name] = [['t', 'm', 'p'], name] := by
  unfold normComps
  simp [h0, h1, h2]

theorem tmpJoin_safe (name : List Char) (h : '/' ∉ name)
    (h0 : name ≠ []) (h1 : name ≠ ['.']) (h2 : name ≠ ['.', '.']) :
    tmpJoin ⟨name⟩ = ⟨'/' :: 't' :: 'm' :: 'p' :: '/' :: name⟩ := by
  unfold tmpJoin
  simp only
  rw [splitSlash_tmp_head name h, normComps_tmp_single name h0 h1 h2]
  rw [if_neg (by simp)]
  rfl

/-! ## Extension sanitisation used by the final-revision routes -/

/-- `path.extname(req.file.originalname).replace(/^\./, "") || "tmp"`
(the input-extension computation of the video and audio routes). -/
def inExtOf (orig : String) : String :=
  let e := extnameData orig.data
  let e2 := if e.head? = some '.' then e.tail else e
  if e2 = [] then ⟨['t', 'm', 'p']⟩ else ⟨e2⟩

/-- Lower-case hexadecimal digit. -/
def hexDigit (c : Char) : Bool :=
  c.isDigit || (('a' ≤ c) && (c ≤ 'f'))

/-- A uuidv4-style token: nonempty, made of hex digits and hyphens
(in particular it contains neither `.` nor `/`). -/
def isToken (u : String) : Prop :=
  u.data ≠ [] ∧ ∀ c ∈ u.data, hexDigit c = true ∨ c = '-'

instance (u : String) : Decidable (isToken u) := by
  unfold isToken; infer_instance

theorem mem_takeWhile_pred {p : Char → Bool} :
    ∀ l : List Char, ∀ x, x ∈ l.takeWhile p → p x = true := by
  intro l
  induction l with
  | nil => intro x h; simp [List.takeWhile] at h
  | cons c rest ih =>
    intro x h
    rw [List.takeWhile_cons] at h
    by_cases hc : p c
    · rw [if_pos hc] at h
      rcases List.mem_cons.mp h with h | h
      · exact h ▸ hc
      · exact ih x h
    · rw [if_neg hc] at h; simp at h

theorem mem_takeWhile_mem {p : Char → Bool} :
    ∀ l : List Char, ∀ x, x ∈ l.takeWhile p → x ∈ l := by
  intro l
  induction l with
  | nil => intro x h; simp [List.takeWhile] at h
  | cons c rest ih =>
    intro x h
    rw [List.takeWhile_cons] at h
    by_cases hc : p c
    · rw [if_pos hc] at h
      rcases List.mem_cons.mp h with h | h
      · exact h ▸ List.mem_cons_self c rest
      · exact List.mem_cons_of_mem c (ih x h)
    · rw [if_neg hc] at h; simp at h

theorem extnameData_shape (p : List Char) :
    extnameData p = [] ∨
      ∃ t, extnameData p = '.' :: t ∧ '.' ∉ t ∧ '/' ∉ t := by
  unfold extnameData
  set b := afterLastSlash (stripTrailingSlashes p) with hb
  by_cases hdd : b = ['.', '.']
  · left; rw [if_pos hdd]
  · rw [if_neg hdd]
    simp only
    set r := b.reverse with hr
    set afterDot := r.takeWhile (fun c => c ≠ '.') with had
    by_cases h1 : afterDot.length = r.length
    · left; rw [if_pos h1]
    · rw [if_neg h1]
      by_cases h2 : afterDot.length + 1 = r.length
      · left; rw [if_pos h2]
      · rw [if_neg h2]
        right
        refine ⟨afterDot.reverse, rfl, ?_, ?_⟩
        · intro hmem
          have : ('.' : Char) ∈ afterDot := by simpa using hmem
          have := mem_takeWhile_pred (p := fun c => c ≠ '.') r '.' this
          simp at this
        · intro hmem
          have h3 : ('/' : Char) ∈ afterDot := by simpa using hmem
          have h4 : ('/' : Char) ∈ r := mem_takeWhile_mem r '/' h3
          have h5 : ('/' : Char) ∈ b := by simpa [hr] using h4
          exact afterLastSlash_no_slash (stripTrailingSlashes p) (hb ▸ h5)

theorem inExt_facts (orig : String) :
    (inExtOf orig).data ≠ [] ∧ '.' ∉ (inExtOf orig).data ∧
      '/' ∉ (inExtOf orig).data := by
  unfold inExtOf
  rcases extnameData_shape orig.data with h | ⟨t, h, hdot, hslash⟩
  · rw [h]; simp
  · rw [h]
    by_cases ht : t = []
    · subst ht; refine ⟨by simp, by decide, by decide⟩
    · refine ⟨?_, ?_, ?_⟩ <;> simp [ht, hdot, hslash]

/-- Splitting at the first dot is unambiguous: tokens free of dots
followed by a dot determine each other. -/
theorem append_dot_inj :
    ∀ (l1 l2 r1 r2 : List Char), '.' ∉ l1 → '.' ∉ l2 →
      l1 ++ '.' :: r1 = l2 ++ '.' :: r2 → l1 = l2 ∧ r1 = r2 := by
  intro l1
  induction l1 with
  | nil =>
    intro l2 r1 r2 _ h2 heq
    cases l2 with
    | nil => simpa using heq
    | cons c t =>
      simp only [List.nil_append, List.cons_append, List.cons.injEq] at heq
      exact absurd (heq.1 ▸ List.mem_cons_self c t) h2
  | cons c t ih =>
    intro l2 r1 r2 h1 h2 heq
    cases l2 with
    | nil =>
      simp only [List.nil_append, List.cons_append, List.cons.injEq] at heq
      exact absurd (heq.1.symm ▸ List.mem_cons_self c t) h1
    | cons d s =>
      simp only [List.cons_append, List.cons.injEq] at heq
      have h1t : '.' ∉ t := fun hm => h1 (List.mem_cons_of_mem c hm)
      have h2s : '.' ∉ s := fun hm => h2 (List.mem_cons_of_mem d hm)
      rcases ih s r1 r2 h1t h2s heq.2 with ⟨hts, hr⟩
      exact ⟨by rw [heq.1, hts], hr⟩

theorem token_no_dot {u : String} (h : isToken u) : '.' ∉ u.data := by
  intro hm
  rcases h.2 '.' hm with hhex | hhyph
  · exact absurd hhex (by decide)
  · exact absurd hhyph (by decide)

theorem token_no_slash {u : String} (h : isToken u) : '/' ∉ u.data := by
  intro hm
  rcases h.2 '/' hm with hhex | hhyph
  · exact absurd hhex (by decide)
  · exact absurd hhyph (by decide)

/-- The tmp-file name built from a token and a sanitised extension is a
single safe path component, so `tmpJoin` keeps it directly under
`/tmp`. -/
theorem tmpFilePath_eq (u ext : String) (hu : isToken u)
    (he0 : ext.data ≠ []) (hes : '/' ∉ ext.data) :
    tmpFilePath u ext =
      ⟨'/' :: 't' :: 'm' :: 'p' :: '/' :: (u.data ++ '.' :: ext.data)⟩ := by
  unfold tmpFilePath
  rw [if_neg he0]
  set name := u.data ++ '.' :: ext.data with hname
  obtain ⟨c, t, hct⟩ : ∃ c t, u.data = c :: t := by
    cases hd : u.data with
    | nil => exact absurd hd hu.1
    | cons c t => exact ⟨c, t, rfl⟩
  have hc : hexDigit c = true ∨ c = '-' :=
    hu.2 c (hct ▸ List.mem_cons_self c t)
  have hcdot : c ≠ '.' := by
    rintro rfl
    rcases hc with h | h
    · exact absurd h (by decide)
    · exact absurd h (by decide)
  have hcons : name = c :: (t ++ '.' :: ext.data) := by
    rw [hname, hct]; rfl
  apply tmpJoin_safe
  · intro hm
    rw [hname] at hm
    rcases List.mem_append.mp hm with hm | hm
    · exact token_no_slash hu hm
    · rcases List.mem_cons.mp hm with hm | hm
      · simp at hm
      · exact hes hm
  · rw [hcons]; simp
  · rw [hcons]
    intro hcontra
    have : c = '.' := by
      have := congrArg List.head? hcontra
      simpa using this
    exact hcdot this
  · rw [hcons]
    intro hcontra
    have : c = '.' := by
      have := congrArg List.head? hcontra
      simpa using this
    exact hcdot this

theorem takeWhile_stop {p : Char → Bool} :
    ∀ (l1 : List Char) (c : Char) (l2 : List Char),
      (∀ x ∈ l1, p x = true) → p c = false →
      (l1 ++ c :: l2).takeWhile p = l1 := by
  intro l1
  induction l1 with
  | nil =>
    intro c l2 _ hc
    simp [List.takeWhile_cons, hc]
  | cons d t ih =>
    intro c l2 hall hc
    have hd : p d = true := hall d (List.mem_cons_self d t)
    have ht : ∀ x ∈ t, p x = true := fun x hx => hall x (List.mem_cons_of_mem d hx)
    simp only [List.cons_append, List.takeWhile_cons, hd, if_pos]
    rw [ih c l2 ht hc]

/-- On a well-formed `stem.ext` original filename (nonempty stem,
nonempty dot-free extension, no directory separators), Node
`path.parse(..).name` recovers exactly the stem. -/
theorem parseName_concat (stem ext : String)
    (hs0 : stem.data ≠ []) (he0 : ext.data ≠ [])
    (hedot : '.' ∉ ext.data) (hss : '/' ∉ stem.data) (hes : '/' ∉ ext.data) :
    parseName ⟨stem.data ++ '.' :: ext.data⟩ = stem := by
  set l := stem.data ++ '.' :: ext.data with hl
  have hnos : '/' ∉ l := by
    intro hm
    rcases List.mem_append.mp hm with hm | hm
    · exact hss hm
    · rcases List.mem_cons.mp hm with hm | hm
      · simp at hm
      · exact hes hm
  have hb : afterLastSlash (stripTrailingSlashes l) = l := by
    rw [stripTrailingSlashes_of_no_slash l hnos, afterLastSlash_of_no_slash l hnos]
  have hrev : l.reverse = ext.data.reverse ++ '.' :: stem.data.reverse := by
    rw [hl]
    simp
  have htw :
      l.reverse.takeWhile (fun c => c ≠ '.') = ext.data.reverse := by
    rw [hrev]
    apply takeWhile_stop
    · intro x hx
      have hxm : x ∈ ext.data := by simpa using hx
      simp only [decide_eq_true_eq]
      intro h
      exact hedot (h ▸ hxm)
    · simp
  have hlen : l.length = stem.data.length + 1 + ext.data.length := by
    rw [hl, List.length_append, List.length_cons]
    omega
  have hrlen : l.reverse.length = l.length := List.length_reverse l
  have hel : ext.data.reverse.length = ext.data.length := List.length_reverse _
  have hext : extnameData l = '.' :: ext.data := by
    unfold extnameData
    rw [hb]
    have hne : l ≠ ['.', '.'] := by
      intro hcontra
      have h2 : l.length = 2 := by rw [hcontra]; rfl
      rw [hlen] at h2
      have h3 : stem.data.length ≥ 1 := List.length_pos.mpr hs0
      have h4 : ext.data.length ≥ 1 := List.length_pos.mpr he0
      omega
    rw [if_neg hne]
    simp only [htw]
    have h1 : ¬(ext.data.reverse.length = l.reverse.length) := by
      rw [hel, hrlen, hlen]
      omega
    rw [if_neg h1]
    have h2 : ¬(ext.data.reverse.length + 1 = l.reverse.length) := by
      rw [hel, hrlen, hlen]
      intro hcontra
      exact hs0 (List.length_eq_zero.mp (by omega))
    rw [if_neg h2]
    rw [List.reverse_reverse]
  unfold parseName parseNameData
  simp only [hb, hext]
  have hlen2 : l.length - ('.' :: ext.data).length = stem.data.length := by
    rw [hlen, List.length_cons]
    omega
  rw [hlen2]
  have : l.take stem.data.length = stem.data := by
    rw [hl, List.take_append_of_le_length (le_refl _), List.take_length]
  rw [this]

/-! ## Codec capabilities and plan selection (server.js final revision,
module scope and `ffmpeg.getAvailableCodecs` callback) -/

/-- `CODEC_SUPPORT` object. -/
structure CodecSupport where
  x264 : Bool
  mpeg4 : Bool
  mp3 : Bool
  aac : Bool
  opus : Bool
deriving DecidableEq, Repr

/-- Module-scope initialiser: every flag starts `false`. -/
def initialCodecSupport : CodecSupport :=
  { x264 := false, mpeg4 := false, mp3 := false, aac := false, opus := false }

/-- `VIDEO_CONFIG` object. -/
structure VideoConfig where
  vCodec : String
  aCodec : String
  container : String
deriving DecidableEq, Repr

/-- Module-scope initialiser of `VIDEO_CONFIG`. -/
def initialVideoConfig : VideoConfig :=
  { vCodec := "libx264", aCodec := "aac", container := "mp4" }

/-- `AUDIO_CONFIG` object. -/
structure AudioConfig where
  codec : String
  container : String
  mime : String
deriving DecidableEq, Repr

/-- Module-scope initialiser of `AUDIO_CONFIG`. -/
def initialAudioConfig : AudioConfig :=
  { codec := "libmp3lame", container := "mp3", mime := "audio/mpeg" }

/-- The `canEncode` flags of the codec entries the probe callback reads
from the `codecs` listing (absent entry ⇒ `false`, matching the
`!!(codecs.x && codecs.x.canEncode)` coercions). -/
structure CodecsListing where
  libx264 : Bool
  mpeg4 : Bool
  libmp3lame : Bool
  aac : Bool
  libopus : Bool
deriving DecidableEq, Repr

/-- The five `CODEC_SUPPORT.* = !!(...)` assignments of the callback. -/
def probeSupport (c : CodecsListing) : CodecSupport :=
  { x264 := c.libx264, mpeg4 := c.mpeg4, mp3 := c.libmp3lame,
    aac := c.aac, opus := c.libopus }

/-- The "Decide video codec/container" if-chain of the callback. -/
def updateVideoCodec (s : CodecSupport) (v : VideoConfig) : VideoConfig :=
  if s.x264 then { v with vCodec := "libx264", container := "mp4" }
  else if s.mpeg4 then { v with vCodec := "mpeg4", container := "mp4" }
  else v

/-- The "Decide video audio codec" if-chain of the callback. -/
def updateVideoAudio (s : CodecSupport) (v : VideoConfig) : VideoConfig :=
  if s.aac then { v with aCodec := "aac" }
  else if s.mp3 then { v with aCodec := "libmp3lame" }
  else { v with aCodec := "copy" }

/-- The "Decide audio endpoint defaults & MIME" if-chain of the
callback; the final else only warns and leaves `AUDIO_CONFIG`
unchanged. -/
def updateAudioConfig (s : CodecSupport) (a : AudioConfig) : AudioConfig :=
  if s.mp3 then { codec := "libmp3lame", container := "mp3", mime := "audio/mpeg" }
  else if s.aac then { codec := "aac", container := "m4a", mime := "audio/mp4" }
  else if s.opus then { codec := "libopus", container := "ogg", mime := "audio/ogg" }
  else a

/-- The `/compress/audio` encoder-availability guard (negated): the
route proceeds only when `CODEC_SUPPORT.mp3 || aac || opus`. -/
def audioPlanAvailable (s : CodecSupport) : Bool := s.mp3 || s.aac || s.opus

/-- The audio plan a request effectively gets: `none` when the route
guard rejects with 501, otherwise the `AUDIO_CONFIG` value the probe
callback computed from the same capability set (starting from the
module default `a`). -/
def routeAudioPlan (s : CodecSupport) (a : AudioConfig) : Option AudioConfig :=
  if audioPlanAvailable s then some (updateAudioConfig s a) else none

/-- Modelled from the spec: the ordered audio fallback as the spec
states it — MP3/`.mp3`/`audio/mpeg`, else AAC/`.m4a`/`audio/mp4`, else
Opus/`.ogg`/`audio/ogg`, else no plan. -/
def audioPlanSpec (s : CodecSupport) : Option AudioConfig :=
  if s.mp3 then some { codec := "libmp3lame", container := "mp3", mime := "audio/mpeg" }
  else if s.aac then some { codec := "aac", container := "m4a", mime := "audio/mp4" }
  else if s.opus then some { codec := "libopus", container := "ogg", mime := "audio/ogg" }
  else none

/-- Modelled from the spec: video codec/container fallback as the spec
states it — modern codec, else legacy codec with the mp4 container,
else best-effort modern codec. -/
def videoCodecSpec (s : CodecSupport) : String × String :=
  if s.x264 then ("libx264", "mp4")
  else if s.mpeg4 then ("mpeg4", "mp4")
  else ("libx264", "mp4")

/-! ## Server state across startup -/

/-- The process-wide mutable state the routes read. -/
structure ServerState where
  support : CodecSupport
  videoConfig : VideoConfig
  audioConfig : AudioConfig
  probeResolved : Bool
  listening : Bool
deriving DecidableEq, Repr

/-- State right after the module body has run: routes are registered
and `app.listen` has been called, but `ffmpeg.getAvailableCodecs` is an
asynchronous callback API — its callback has not run yet, so the codec
state still holds the module-scope defaults. -/
def moduleInit : ServerState :=
  { support := initialCodecSupport, videoConfig := initialVideoConfig,
    audioConfig := initialAudioConfig, probeResolved := false,
    listening := true }

/-- Argument of the `getAvailableCodecs` callback: either the query
failed (`err` truthy) or it produced a codec listing. -/
inductive ProbeResult where
  | failed : ProbeResult
  | listed : CodecsListing → ProbeResult
deriving DecidableEq, Repr

/-- The whole `getAvailableCodecs` callback body: on error only a log
happens; otherwise `CODEC_SUPPORT`, `VIDEO_CONFIG` and `AUDIO_CONFIG`
are updated in one synchronous run of the callback. -/
def applyProbe (r : ProbeResult) (st : ServerState) : ServerState :=
  match r with
  | .failed => { st with probeResolved := true }
  | .listed c =>
    let s := probeSupport c
    { st with
      support := s,
      videoConfig := updateVideoAudio s (updateVideoCodec s st.videoConfig),
      audioConfig := updateAudioConfig s st.audioConfig,
      probeResolved := true }

/-! ## Filesystem model and the `cleanup` helper -/

/-- `fs.unlinkSync`: removes the file, raising `ENOENT` when it is
absent.  The filesystem is the list of existing paths. -/
def unlinkSync (fsState : List String) (p : String) : Except String (List String) :=
  if p ∈ fsState then .ok (fsState.filter (fun q => q ≠ p))
  else .error "ENOENT"

/-- One iteration of the `cleanup` helper for a single path:
`try { if (f && fs.existsSync(f)) fs.unlinkSync(f); } catch (_) {}` —
the `existsSync` guard (with the catch as belt and braces) makes the
deletion attempt total: an absent file is simply skipped. -/
def cleanupFile (fsState : List String) (p : String) : List String :=
  if p ∈ fsState then
    match unlinkSync fsState p with
    | .ok fs2 => fs2
    | .error _ => fsState
  else fsState

/-- `cleanup(files)` folds the single-file attempt over the list. -/
def cleanup (fsState : List String) (files : List String) : List String :=
  files.foldl cleanupFile fsState

/-! ## Route handlers (final revision) -/

/-- One uploaded multipart file as multer presents it. -/
structure UploadedFile where
  originalname : String
  size : Nat
deriving DecidableEq, Repr

/-- The response observable by the HTTP caller. -/
structure HttpResponse where
  status : Nat
  body : String
  headers : List (String × String)
  streamedFrom : Option String
deriving DecidableEq, Repr

/-- Everything a route invocation does: the response plus its
side-effect trace. `fsWrites` are the `writeFileSync` targets,
`spawned` says whether an encoder subprocess was started, `releases`
lists the per-handle deletion attempts (`cleanup` arguments, in
order), `logs` the `console` output. -/
structure RouteResult where
  response : HttpResponse
  fsWrites : List String
  spawned : Bool
  encoderArgs : List String
  releases : List String
  logs : List String
deriving DecidableEq, Repr

/-- Terminal event of the ffmpeg invocation: fluent-ffmpeg fires
exactly one of `end` / `error`, the latter carrying the diagnostic. -/
inductive EncoderOutcome where
  | completed : EncoderOutcome
  | failed : String → EncoderOutcome
deriving DecidableEq, Repr

/-- `return res.status(400).send("No file uploaded")` before any other
work. -/
def noFileResult : RouteResult :=
  ⟨⟨400, "No file uploaded", [], none⟩, [], false, [], [], []⟩

/-- `POST /compress/image`: sharp runs in memory; `sharpOk` stands for
whether the sharp pipeline resolved or threw. -/
def handleImage (file : Option UploadedFile) (sharpOk : Bool) : RouteResult :=
  match file with
  | none => noFileResult
  | some _ =>
    if sharpOk then
      ⟨⟨200, "<jpeg bytes>", [("Content-Type", "image/jpeg")], none⟩,
        [], false, [], [], []⟩
    else
      ⟨⟨500, "Image compression failed", [], none⟩,
        [], false, [], [], ["Image compression error"]⟩

/-- The video route's `Content-Disposition` value:
`attachment; filename="compressed_<parsed name>.<container>"`. -/
def videoDisposition (orig : String) (v : VideoConfig) : String :=
  "attachment; filename=\"compressed_" ++ parseName orig ++ "." ++ v.container ++ "\""

/-- `POST /compress/video` (final revision).  `u1`, `u2` are the two
uuidv4 draws, `o` the encoder's terminal event. -/
def handleVideo (v : VideoConfig) (file : Option UploadedFile)
    (u1 u2 : String) (o : EncoderOutcome) : RouteResult :=
  match file with
  | none => noFileResult
  | some f =>
    let tmpInput := tmpFilePath u1 (inExtOf f.originalname)
    let tmpOutput := tmpFilePath u2 v.container
    let headers :=
      [("Content-Type", "video/mp4"),
       ("Content-Disposition", videoDisposition f.originalname v)]
    let args :=
      ["-vcodec " ++ v.vCodec, "-crf 28", "-preset superfast",
       "-c:a " ++ v.aCodec, "-b:a 128k", "-movflags +faststart"]
    match o with
    | .failed diag =>
      ⟨⟨500, "Video compression failed", headers, none⟩,
        [tmpInput], true, args, [tmpInput, tmpOutput],
        ["FFmpeg video error: " ++ diag]⟩
    | .completed =>
      ⟨⟨200, "", headers, some tmpOutput⟩,
        [tmpInput], true, args, [tmpInput, tmpOutput], []⟩

/-- The audio route's `Content-Disposition` value. -/
def audioDisposition (orig : String) (a : AudioConfig) : String :=
  "attachment; filename=\"compressed_" ++ parseName orig ++ "." ++ a.container ++ "\""

/-- The per-codec bitrate/format chain of the audio route. -/
def audioChainArgs (a : AudioConfig) : List String :=
  ["-acodec " ++ a.codec] ++
    (if a.codec = "libmp3lame" then ["-b:a 96k", "-f mp3"]
     else if a.codec = "aac" then ["-b:a 96k", "-f ipod"]
     else if a.codec = "libopus" then ["-b:a 64k", "-f ogg"]
     else [])

/-- `POST /compress/audio` (final revision), including the
`!CODEC_SUPPORT.mp3 && !aac && !opus` 501 guard that runs before any
temp file is written or subprocess spawned. -/
def handleAudio (s : CodecSupport) (a : AudioConfig) (file : Option UploadedFile)
    (u1 u2 : String) (o : EncoderOutcome) : RouteResult :=
  match file with
  | none => noFileResult
  | some f =>
    if !s.mp3 && !s.aac && !s.opus then
      ⟨⟨501, "No suitable audio encoders available on this server (MP3/AAC/Opus).",
          [], none⟩, [], false, [], [], []⟩
    else
      let tmpInput := tmpFilePath u1 (inExtOf f.originalname)
      let tmpOutput := tmpFilePath u2 a.container
      let headers :=
        [("Content-Type", a.mime),
         ("Content-Disposition", audioDisposition f.originalname a)]
      match o with
      | .failed diag =>
        ⟨⟨500, "Audio compression failed", headers, none⟩,
          [tmpInput], true, audioChainArgs a, [tmpInput, tmpOutput],
          ["FFmpeg audio error: " ++ diag]⟩
      | .completed =>
        ⟨⟨200, "", headers, some tmpOutput⟩,
          [tmpInput], true, audioChainArgs a, [tmpInput, tmpOutput], []⟩

/-! ## GET dispatch and the catch-all route -/

inductive Method where
  | get : Method
  | post : Method
  | options : Method
deriving DecidableEq, Repr

/-- Prefix test matching `String.startsWith` semantics. -/
def strStartsWith (s pre : String) : Bool := pre.data.isPrefixOf s.data

/-- The routes the module registers, in registration order; the
trailing `GET *` is the SPA fallback / catch-all. -/
def registeredRoutes : List (Method × String) :=
  [(.post, "/compress/image"), (.post, "/compress/video"),
   (.post, "/compress/audio"), (.get, "*")]

/-- The `app.get("*", ...)` handler of the final revision. -/
def handleGetCatchAll (p : String) (indexExists : Bool) : HttpResponse :=
  if strStartsWith p "/compress/" then ⟨404, "Route not found", [], none⟩
  else if indexExists then ⟨200, "", [], some "public/index.html"⟩
  else ⟨404, "Frontend not found", [], none⟩

/-- GET dispatch: POST-registered routes never match a GET request, so
a GET passes the static middleware (which serves only paths present
under `public/`) and then reaches the catch-all. -/
def dispatchGet (staticFiles : List String) (indexExists : Bool)
    (p : String) : HttpResponse :=
  if p ∈ staticFiles then ⟨200, "", [], some p⟩
  else handleGetCatchAll p indexExists

/-! ## Auxiliary facts about reachable configurations -/

theorem audio_guard_neg {s : CodecSupport} (h : audioPlanAvailable s = true) :
    (!s.mp3 && !s.aac && !s.opus) = false := by
  rcases s with ⟨x, m, p3, aa, op⟩
  cases p3 <;> cases aa <;> cases op <;> simp_all [audioPlanAvailable]

theorem video_container_mp4 (p : ProbeResult) :
    (applyProbe p moduleInit).videoConfig.container = "mp4" := by
  cases p with
  | failed => rfl
  | listed c =>
    rcases c with ⟨b1, b2, b3, b4, b5⟩
    cases b1 <;> cases b2 <;> cases b3 <;> cases b4 <;> rfl

theorem audio_container_facts (p : ProbeResult)
    (h : audioPlanAvailable (applyProbe p moduleInit).support = true) :
    (applyProbe p moduleInit).audioConfig.container.data ≠ [] ∧
      '/' ∉ (applyProbe p moduleInit).audioConfig.container.data := by
  cases p with
  | failed => exact absurd h (by decide)
  | listed c =>
    rcases c with ⟨b1, b2, b3, b4, b5⟩
    cases b1 <;> cases b2 <;> cases b3 <;> cases b4 <;> cases b5 <;>
      first
        | exact absurd h (by decide)
        | exact ⟨by decide, by decide⟩

/-- Distinct tokens yield distinct temp paths, whatever the sanitised
extensions are. -/
theorem tmpFilePath_ne (u1 u2 e1 e2 : String)
    (h1 : isToken u1) (h2 : isToken u2) (hne : u1 ≠ u2)
    (he1 : e1.data ≠ []) (hs1 : '/' ∉ e1.data)
    (he2 : e2.data ≠ []) (hs2 : '/' ∉ e2.data) :
    tmpFilePath u1 e1 ≠ tmpFilePath u2 e2 := by
  intro hcontra
  rw [tmpFilePath_eq u1 e1 h1 he1 hs1, tmpFilePath_eq u2 e2 h2 he2 hs2] at hcontra
  have hdata : '/' :: 't' :: 'm' :: 'p' :: '/' :: (u1.data ++ '.' :: e1.data) =
      '/' :: 't' :: 'm' :: 'p' :: '/' :: (u2.data ++ '.' :: e2.data) :=
    congrArg String.data hcontra
  simp only [List.cons.injEq, true_and] at hdata
  have := append_dot_inj u1.data u2.data e1.data e2.data
    (token_no_dot h1) (token_no_dot h2) hdata
  exact hne (congrArg String.mk this.1)

/-! ## Claim theorems -/

/-- Claim C2: the audio-endpoint plan selection is the ordered fallback
MP3/`.mp3`/`audio/mpeg`, else AAC/`.m4a`/`audio/mp4`, else
Opus/`.ogg`/`audio/ogg`, else no plan: the plan a request effectively
gets (501 guard composed with the probe callback's `AUDIO_CONFIG`
decision) coincides with the spec's ordered fallback for every
capability set and whatever `AUDIO_CONFIG` default is in place. -/
theorem audio_plan_matches_spec :
    ∀ (s : CodecSupport) (a : AudioConfig),
      routeAudioPlan s a = audioPlanSpec s := by
  intro s a
  rcases s with ⟨x, m, p3, aa, op⟩
  cases p3 <;> cases aa <;> cases op <;> rfl

/-- Claim C3: video plan selection prefers libx264/mp4, falls back to
mpeg4/mp4, and with neither capability still attempts libx264/mp4; the
video route never rejects at selection time (it always spawns the
encoder when a file is present). -/
theorem video_plan_matches_spec :
    ∀ (p : ProbeResult) (v : VideoConfig) (f : UploadedFile)
      (u1 u2 : String) (o : EncoderOutcome),
      ((applyProbe p moduleInit).videoConfig.vCodec,
        (applyProbe p moduleInit).videoConfig.container) =
          videoCodecSpec (applyProbe p moduleInit).support ∧
      (handleVideo v (some f) u1 u2 o).spawned = true := by
  intro p v f u1 u2 o
  refine ⟨?_, ?_⟩
  · cases p with
    | failed => rfl
    | listed c =>
      rcases c with ⟨b1, b2, b3, b4, b5⟩
      cases b1 <;> cases b2 <;> cases b3 <;> cases b4 <;> rfl
  · cases o <;> rfl

/-- Claim C6: a POST with no file payload gets status 400 from each of
the three routes, with no filesystem write and no encoder spawn. -/
theorem no_file_upload_400 :
    ∀ (sharpOk : Bool) (v : VideoConfig) (s : CodecSupport) (a : AudioConfig)
      (u1 u2 : String) (o : EncoderOutcome),
      handleImage none sharpOk = noFileResult ∧
      handleVideo v none u1 u2 o = noFileResult ∧
      handleAudio s a none u1 u2 o = noFileResult ∧
      noFileResult.response.status = 400 ∧
      noFileResult.fsWrites = [] ∧
      noFileResult.spawned = false := by
  intro sharpOk v s a u1 u2 o
  exact ⟨rfl, rfl, rfl, rfl, rfl, rfl⟩

/-- Claim C4: with no audio encoder capability recorded — as is the
case in particular when the startup probe failed — the audio route
answers 501 with the explicit no-suitable-encoder message, before any
temp write or spawn, and does not answer 500. -/
theorem audio_no_encoder_501 :
    ∀ (s : CodecSupport) (a : AudioConfig) (f : UploadedFile)
      (u1 u2 : String) (o : EncoderOutcome),
      s.mp3 = false → s.aac = false → s.opus = false →
      (handleAudio s a (some f) u1 u2 o).response.status = 501 ∧
      (handleAudio s a (some f) u1 u2 o).response.body =
        "No suitable audio encoders available on this server (MP3/AAC/Opus)." ∧
      (handleAudio s a (some f) u1 u2 o).fsWrites = [] ∧
      (handleAudio s a (some f) u1 u2 o).spawned = false ∧
      (handleAudio s a (some f) u1 u2 o).response.status ≠ 500 ∧
      (applyProbe .failed moduleInit).support = initialCodecSupport ∧
      initialCodecSupport.mp3 = false ∧ initialCodecSupport.aac = false ∧
      initialCodecSupport.opus = false := by
  intro s a f u1 u2 o h3 haa hop
  rcases s with ⟨x, m, p3, aa, op⟩
  dsimp at h3 haa hop
  subst h3; subst haa; subst hop
  refine ⟨rfl, rfl, rfl, rfl, ?_, rfl, rfl, rfl, rfl⟩
  have h501 :
      (handleAudio ⟨x, m, false, false, false⟩ a (some f) u1 u2 o).response.status
        = 501 := rfl
  omega

/-- Witness for C4 at a concrete request: all-unsupported capabilities,
a concrete file, both encoder outcomes irrelevant. -/
theorem audio_no_encoder_501_witness :
    (handleAudio initialCodecSupport initialAudioConfig
        (some ⟨"song.wav", 10⟩) "u" "v" .completed).response.status = 501 ∧
    (handleAudio initialCodecSupport initialAudioConfig
        (some ⟨"song.wav", 10⟩) "u" "v" .completed).response.body =
      "No suitable audio encoders available on this server (MP3/AAC/Opus)." ∧
    (handleAudio initialCodecSupport initialAudioConfig
        (some ⟨"song.wav", 10⟩) "u" "v" .completed).fsWrites = [] ∧
    (handleAudio initialCodecSupport initialAudioConfig
        (some ⟨"song.wav", 10⟩) "u" "v" .completed).spawned = false ∧
    (handleAudio initialCodecSupport initialAudioConfig
        (some ⟨"song.wav", 10⟩) "u" "v" .completed).response.status ≠ 500 ∧
    (applyProbe .failed moduleInit).support = initialCodecSupport ∧
    initialCodecSupport.mp3 = false ∧ initialCodecSupport.aac = false ∧
    initialCodecSupport.opus = false :=
  audio_no_encoder_501 initialCodecSupport initialAudioConfig
    ⟨"song.wav", 10⟩ "u" "v" .completed rfl rfl rfl

/-- Claim C8: on an encoder failure both transcode routes answer 500
with a fixed generic body independent of the diagnostic, stream
nothing, and put the raw diagnostic only in the log. -/
theorem encoder_failure_generic_500 :
    ∀ (v : VideoConfig) (s : CodecSupport) (a : AudioConfig)
      (f : UploadedFile) (u1 u2 diag : String),
      audioPlanAvailable s = true →
      ((handleVideo v (some f) u1 u2 (.failed diag)).response.status = 500 ∧
       (handleVideo v (some f) u1 u2 (.failed diag)).response.body =
         "Video compression failed" ∧
       (handleVideo v (some f) u1 u2 (.failed diag)).response.streamedFrom = none ∧
       ("FFmpeg video error: " ++ diag) ∈
         (handleVideo v (some f) u1 u2 (.failed diag)).logs) ∧
      ((handleAudio s a (some f) u1 u2 (.failed diag)).response.status = 500 ∧
       (handleAudio s a (some f) u1 u2 (.failed diag)).response.body =
         "Audio compression failed" ∧
       (handleAudio s a (some f) u1 u2 (.failed diag)).response.streamedFrom = none ∧
       ("FFmpeg audio error: " ++ diag) ∈
         (handleAudio s a (some f) u1 u2 (.failed diag)).logs) := by
  intro v s a f u1 u2 diag hav
  have hg := audio_guard_neg hav
  refine ⟨⟨?_, ?_, ?_, ?_⟩, ?_, ?_, ?_, ?_⟩ <;>
    simp [handleVideo, handleAudio, hg]

/-- Witness for C8 at a concrete failing job (MP3 capability present
for the audio route). -/
theorem encoder_failure_generic_500_witness :
    ((handleVideo initialVideoConfig (some ⟨"clip.mov", 3⟩) "aa" "bb"
        (.failed "boom")).response.status = 500 ∧
     (handleVideo initialVideoConfig (some ⟨"clip.mov", 3⟩) "aa" "bb"
        (.failed "boom")).response.body = "Video compression failed" ∧
     (handleVideo initialVideoConfig (some ⟨"clip.mov", 3⟩) "aa" "bb"
        (.failed "boom")).response.streamedFrom = none ∧
     ("FFmpeg video error: " ++ "boom") ∈
       (handleVideo initialVideoConfig (some ⟨"clip.mov", 3⟩) "aa" "bb"
         (.failed "boom")).logs) ∧
    ((handleAudio ⟨false, false, true, false, false⟩ initialAudioConfig
        (some ⟨"clip.mov", 3⟩) "aa" "bb" (.failed "boom")).response.status = 500 ∧
     (handleAudio ⟨false, false, true, false, false⟩ initialAudioConfig
        (some ⟨"clip.mov", 3⟩) "aa" "bb" (.failed "boom")).response.body =
       "Audio compression failed" ∧
     (handleAudio ⟨false, false, true, false, false⟩ initialAudioConfig
        (some ⟨"clip.mov", 3⟩) "aa" "bb" (.failed "boom")).response.streamedFrom = none ∧
     ("FFmpeg audio error: " ++ "boom") ∈
       (handleAudio ⟨false, false, true, false, false⟩ initialAudioConfig
         (some ⟨"clip.mov", 3⟩) "aa" "bb" (.failed "boom")).logs) :=
  encoder_failure_generic_500 initialVideoConfig
    ⟨false, false, true, false, false⟩ initialAudioConfig
    ⟨"clip.mov", 3⟩ "aa" "bb" "boom" (by decide)

/-- Claim C10: a GET whose path begins with `/compress/` (and which the
static layer does not serve) gets 404 with body "Route not found",
never the SPA index; the compression paths are registered with the
POST method only. -/
theorem get_compress_route_not_found :
    ∀ (p : String) (staticFiles : List String) (indexExists : Bool),
      strStartsWith p "/compress/" = true → p ∉ staticFiles →
      dispatchGet staticFiles indexExists p = ⟨404, "Route not found", [], none⟩ ∧
      (dispatchGet staticFiles indexExists p).streamedFrom = none ∧
      (registeredRoutes.all
        (fun r => !(strStartsWith r.2 "/compress/") || decide (r.1 = Method.post))) = true := by
  intro p sf ie h hns
  have h1 : dispatchGet sf ie p = ⟨404, "Route not found", [], none⟩ := by
    simp [dispatchGet, handleGetCatchAll, hns, h]
  exact ⟨h1, by rw [h1], by decide⟩

/-- Witness for C10 at the concrete path `/compress/image` with no
matching static file. -/
theorem get_compress_route_not_found_witness :
    dispatchGet [] true "/compress/image" = ⟨404, "Route not found", [], none⟩ ∧
    (dispatchGet [] true "/compress/image").streamedFrom = none ∧
    (registeredRoutes.all
      (fun r => !(strStartsWith r.2 "/compress/") || decide (r.1 = Method.post))) = true :=
  get_compress_route_not_found "/compress/image" [] true (by decide) (by simp)

/-- Claim C9: for a well-formed original filename `stem.ext` the
`Content-Disposition` filenames of both transcode routes are
`compressed_<stem>.<container>`: the original extension is stripped and
the plan's container extension appended. -/
theorem disposition_filename_derived :
    ∀ (stem ext : String) (v : VideoConfig) (s : CodecSupport) (a : AudioConfig)
      (u1 u2 : String) (o : EncoderOutcome) (sz : Nat),
      stem.data ≠ [] → ext.data ≠ [] → '.' ∉ ext.data →
      '/' ∉ stem.data → '/' ∉ ext.data →
      audioPlanAvailable s = true →
      (handleVideo v (some ⟨⟨stem.data ++ '.' :: ext.data⟩, sz⟩) u1 u2 o).response.headers =
        [("Content-Type", "video/mp4"),
         ("Content-Disposition",
          "attachment; filename=\"compressed_" ++ stem ++ "." ++ v.container ++ "\"")] ∧
      (handleAudio s a (some ⟨⟨stem.data ++ '.' :: ext.data⟩, sz⟩) u1 u2 o).response.headers =
        [("Content-Type", a.mime),
         ("Content-Disposition",
          "attachment; filename=\"compressed_" ++ stem ++ "." ++ a.container ++ "\"")] := by
  intro stem ext v s a u1 u2 o sz hs0 he0 hedot hss hes hav
  have hpn := parseName_concat stem ext hs0 he0 hedot hss hes
  have hg := audio_guard_neg hav
  constructor
  · cases o <;> simp [handleVideo, videoDisposition, hpn]
  · cases o <;> simp [handleAudio, hg, audioDisposition, hpn]

/-- Witness for C9 at the concrete original filename `holiday.mov`. -/
theorem disposition_filename_derived_witness :
    (handleVideo initialVideoConfig (some ⟨⟨"holiday".data ++ '.' :: "mov".data⟩, 5⟩)
        "aa" "bb" .completed).response.headers =
      [("Content-Type", "video/mp4"),
       ("Content-Disposition",
        "attachment; filename=\"compressed_" ++ "holiday" ++ "." ++
          initialVideoConfig.container ++ "\"")] ∧
    (handleAudio ⟨false, false, true, false, false⟩ initialAudioConfig
        (some ⟨⟨"holiday".data ++ '.' :: "mov".data⟩, 5⟩) "aa" "bb" .completed).response.headers =
      [("Content-Type", initialAudioConfig.mime),
       ("Content-Disposition",
        "attachment; filename=\"compressed_" ++ "holiday" ++ "." ++
          initialAudioConfig.container ++ "\"")] :=
  disposition_filename_derived "holiday" "mov" initialVideoConfig
    ⟨false, false, true, false, false⟩ initialAudioConfig "aa" "bb" .completed 5
    (by decide) (by decide) (by decide) (by decide) (by decide) (by decide)

/-- Claim C5: every temp path is `/tmp/<token>.<sanitised ext>` — a
single path component directly under the system temp directory whose
stem is exactly the fresh token; the sanitised extension contains no
separator and no dot, so an original name full of `../` sequences can
never make the (normalising) join escape `/tmp`. -/
theorem tmp_paths_confined :
    ∀ (orig u : String), isToken u →
      (tmpFilePath u (inExtOf orig)).data =
        '/' :: 't' :: 'm' :: 'p' :: '/' :: (u.data ++ '.' :: (inExtOf orig).data) ∧
      '/' ∉ u.data ∧ '/' ∉ (inExtOf orig).data ∧ '.' ∉ (inExtOf orig).data ∧
      (inExtOf orig).data ≠ [] := by
  intro orig u hu
  obtain ⟨hne, hdot, hslash⟩ := inExt_facts orig
  refine ⟨?_, token_no_slash hu, hslash, hdot, hne⟩
  rw [tmpFilePath_eq u (inExtOf orig) hu hne hslash]

/-- Witness for C5 at the path-traversal original name
`../../etc/passwd` and a concrete uuid-style token. -/
theorem tmp_paths_confined_witness :
    (tmpFilePath "0a1b2c3d-4e5f" (inExtOf "../../etc/passwd")).data =
      '/' :: 't' :: 'm' :: 'p' :: '/' ::
        ("0a1b2c3d-4e5f".data ++ '.' :: (inExtOf "../../etc/passwd").data) ∧
    '/' ∉ "0a1b2c3d-4e5f".data ∧ '/' ∉ (inExtOf "../../etc/passwd").data ∧
    '.' ∉ (inExtOf "../../etc/passwd").data ∧
    (inExtOf "../../etc/passwd").data ≠ [] :=
  tmp_paths_confined "../../etc/passwd" "0a1b2c3d-4e5f" (by decide)

/-- Claim C1: whatever the encoder's terminal event, a transcode job's
cleanup names each of its two temp handles exactly once (input and
output paths are distinct because the tokens are distinct fresh uuids),
and the per-file deletion attempt treats an absent file as success —
the bare `unlinkSync` would raise `ENOENT` there, but the guarded
`cleanup` leaves the filesystem unchanged and returns normally. -/
theorem release_exactly_once :
    ∀ (p : ProbeResult) (f : UploadedFile) (u1 u2 : String) (o : EncoderOutcome),
      isToken u1 → isToken u2 → u1 ≠ u2 →
      ((handleVideo (applyProbe p moduleInit).videoConfig (some f) u1 u2 o).releases.count
          (tmpFilePath u1 (inExtOf f.originalname)) = 1 ∧
       (handleVideo (applyProbe p moduleInit).videoConfig (some f) u1 u2 o).releases.count
          (tmpFilePath u2 (applyProbe p moduleInit).videoConfig.container) = 1) ∧
      (audioPlanAvailable (applyProbe p moduleInit).support = true →
       (handleAudio (applyProbe p moduleInit).support (applyProbe p moduleInit).audioConfig
            (some f) u1 u2 o).releases.count
          (tmpFilePath u1 (inExtOf f.originalname)) = 1 ∧
       (handleAudio (applyProbe p moduleInit).support (applyProbe p moduleInit).audioConfig
            (some f) u1 u2 o).releases.count
          (tmpFilePath u2 (applyProbe p moduleInit).audioConfig.container) = 1) ∧
      (∀ (fsState : List String) (q : String), q ∉ fsState →
        unlinkSync fsState q = .error "ENOENT" ∧ cleanupFile fsState q = fsState) := by
  intro p f u1 u2 o h1 h2 hne
  obtain ⟨hie, hid, his⟩ := inExt_facts f.originalname
  refine ⟨?_, ?_, ?_⟩
  · have hvc := video_container_mp4 p
    have hvne : tmpFilePath u1 (inExtOf f.originalname) ≠
        tmpFilePath u2 (applyProbe p moduleInit).videoConfig.container := by
      refine tmpFilePath_ne u1 u2 _ _ h1 h2 hne hie his ?_ ?_ <;>
        rw [hvc] <;> decide
    have hrel : (handleVideo (applyProbe p moduleInit).videoConfig (some f) u1 u2 o).releases =
        [tmpFilePath u1 (inExtOf f.originalname),
         tmpFilePath u2 (applyProbe p moduleInit).videoConfig.container] := by
      cases o <;> rfl
    rw [hrel]
    constructor <;> simp [List.count_cons, hvne, Ne.symm hvne]
  · intro hav
    obtain ⟨hane, hasl⟩ := audio_container_facts p hav
    have haneq : tmpFilePath u1 (inExtOf f.originalname) ≠
        tmpFilePath u2 (applyProbe p moduleInit).audioConfig.container :=
      tmpFilePath_ne u1 u2 _ _ h1 h2 hne hie his hane hasl
    have hg := audio_guard_neg hav
    have hrel : (handleAudio (applyProbe p moduleInit).support
        (applyProbe p moduleInit).audioConfig (some f) u1 u2 o).releases =
        [tmpFilePath u1 (inExtOf f.originalname),
         tmpFilePath u2 (applyProbe p moduleInit).audioConfig.container] := by
      cases o <;> simp [handleAudio, hg]
    rw [hrel]
    constructor <;> simp [List.count_cons, haneq, Ne.symm haneq]
  · intro fsState q hq
    constructor
    · simp [unlinkSync, hq]
    · simp [cleanupFile, hq]

/-- Witness for C1 at a concrete job: full capability set, concrete
file and distinct concrete tokens, plus a concrete absent-file
deletion. -/
theorem release_exactly_once_witness :
    ((handleVideo (applyProbe (.listed ⟨true, true, true, true, true⟩) moduleInit).videoConfig
        (some ⟨"clip.mov", 3⟩) "aaaa" "bbbb" .completed).releases.count
        (tmpFilePath "aaaa" (inExtOf "clip.mov")) = 1 ∧
     (handleVideo (applyProbe (.listed ⟨true, true, true, true, true⟩) moduleInit).videoConfig
        (some ⟨"clip.mov", 3⟩) "aaaa" "bbbb" .completed).releases.count
        (tmpFilePath "bbbb"
          (applyProbe (.listed ⟨true, true, true, true, true⟩) moduleInit).videoConfig.container) = 1) ∧
    ((handleAudio (applyProbe (.listed ⟨true, true, true, true, true⟩) moduleInit).support
        (applyProbe (.listed ⟨true, true, true, true, true⟩) moduleInit).audioConfig
        (some ⟨"clip.mov", 3⟩) "aaaa" "bbbb" .completed).releases.count
        (tmpFilePath "aaaa" (inExtOf "clip.mov")) = 1 ∧
     (handleAudio (applyProbe (.listed ⟨true, true, true, true, true⟩) moduleInit).support
        (applyProbe (.listed ⟨true, true, true, true, true⟩) moduleInit).audioConfig
        (some ⟨"clip.mov", 3⟩) "aaaa" "bbbb" .completed).releases.count
        (tmpFilePath "bbbb"
          (applyProbe (.listed ⟨true, true, true, true, true⟩) moduleInit).audioConfig.container) = 1) ∧
    (unlinkSync ["/tmp/x"] "/tmp/y" = .error "ENOENT" ∧
      cleanupFile ["/tmp/x"] "/tmp/y" = ["/tmp/x"]) := by
  have h := release_exactly_once (.listed ⟨true, true, true, true, true⟩)
    ⟨"clip.mov", 3⟩ "aaaa" "bbbb" .completed (by decide) (by decide) (by decide)
  exact ⟨h.1, h.2.1 (by decide), h.2.2 ["/tmp/x"] "/tmp/y" (by decide)⟩

/-- Claim C7 counterexample: after the module body has executed the
server is already listening (routes reachable) while the asynchronous
codec probe has not resolved — there is no startup barrier ordering
the capability write before route reachability. -/
theorem probe_barrier_counterexample :
    moduleInit.listening = true ∧ moduleInit.probeResolved = false :=
  ⟨rfl, rfl⟩

/-- Claim C7 (amended): the capability state is written only by the
single probe callback, which resolves it in one atomic state
transition; but the write is not ordered before the routes become
reachable: the server listens while the probe is unresolved, and a
request arriving in that window observes the default all-unsupported
capability set (an audio request is then answered 501 without
spawning). -/
theorem probe_write_no_barrier :
    moduleInit.listening = true ∧ moduleInit.probeResolved = false ∧
    (∀ p : ProbeResult, (applyProbe p moduleInit).probeResolved = true) ∧
    (∀ (f : UploadedFile) (u1 u2 : String) (o : EncoderOutcome),
      (handleAudio moduleInit.support moduleInit.audioConfig (some f) u1 u2 o).response.status = 501 ∧
      (handleAudio moduleInit.support moduleInit.audioConfig (some f) u1 u2 o).spawned = false) := by
  refine ⟨rfl, rfl, fun p => ?_, fun f u1 u2 o => ⟨rfl, rfl⟩⟩
  cases p <;> rfl

end FSC
